import Mathlib

/-!
Shallow embedding of the bounded conversation cache and quota-tracking
subsystem (`ols/src/cache/postgres_cache_.py` and
`ols/src/quota/quota_limiter.py`), together with theorems settling the
specification claims about it.

The database state is explicit: the rows of the `cache` table, a logical
clock read by `CURRENT_TIMESTAMP`, and a health flag modelling backend
connectivity (every SQL statement raises `psycopg2.DatabaseError` when the
backend is unreachable).  Each public cache method is a pure function from
a database state to an `OpResult`: the Python return value or raised
exception, the state afterwards, and the number of SQL statements issued.
-/

namespace OLS

/-- One conversational turn.  Modelled from the spec: the CacheEntry model
class lives in `ols/app/models/models.py`, which is not under src; the cache
treats it as an opaque serializable turn ("Immutable once created"), so it is
embedded as an opaque wrapper around its textual content. -/
structure CacheEntry where
  content : String
deriving DecidableEq, Repr

/-- Contents of the `value` column (the stored byte string).
`wellFormed l` stands for a payload that deserializes (`json.loads` with
`MessageDecoder` followed by `CacheEntry.from_dict` on each element) to the
entry list `l`; `malformed raw` stands for any stored byte string on which
deserialization raises (a json decode error or an entry validation error,
both `ValueError`-like, neither a `psycopg2.DatabaseError`). -/
inductive Blob where
  | wellFormed (entries : List CacheEntry) : Blob
  | malformed (raw : String) : Blob
deriving DecidableEq, Repr

/-- One row of the `cache` table (schema in `CREATE_CACHE_TABLE`).
`updated_at` is a timestamp, modelled by the database's logical clock. -/
structure ConversationRecord where
  user_id : String
  conversation_id : String
  value : Blob
  topic_summary : String
  updated_at : Nat
deriving DecidableEq, Repr

/-- The database state: the rows of the `cache` table, the clock read by
`CURRENT_TIMESTAMP` (advanced after every successful mutating call, so
timestamps grow monotonically across calls), and whether the backend is
reachable (`healthy = false` makes every statement raise
`psycopg2.DatabaseError`, modelling connectivity loss). -/
structure DB where
  rows : List ConversationRecord
  now : Nat
  healthy : Bool
deriving DecidableEq, Repr

/-- Python exception values raised or wrapped by the cache code.
`cacheError` is `ols.src.cache.cache_error.CacheError` (the spec's
StorageError), carrying the name of the failing operation and the wrapped
cause. -/
inductive PyError where
  | databaseError (msg : String) : PyError
  | programmingError (msg : String) : PyError
  | valueError (msg : String) : PyError
  | invalidIdentifier (msg : String) : PyError
  | cacheError (op : String) (cause : PyError) : PyError
deriving DecidableEq, Repr

/-- Truth of `isinstance(e, psycopg2.DatabaseError)`: `ProgrammingError`
subclasses `DatabaseError` in psycopg2 (DB-API exception hierarchy), so both
are caught by `except psycopg2.DatabaseError`; `ValueError` and the cache's
own `CacheError` are not. -/
def PyError.isDatabaseError : PyError → Bool
  | .databaseError _ => true
  | .programmingError _ => true
  | _ => false

/-- Modelled from the spec: hexadecimal digit test used by canonical UUID
validation. -/
def isHexDigit (c : Char) : Bool :=
  c.isDigit || (decide ('a' ≤ c) && decide (c ≤ 'f'))
    || (decide ('A' ≤ c) && decide (c ≤ 'F'))

/-- Modelled from the spec: identifier validity used by the `Cache` base
class (`ols/src/cache/cache.py`, not under src).  "Both `user_id` and
`conversation_id` are validated as canonical UUID-format strings": 8-4-4-4-12
hexadecimal groups separated by dashes. -/
def checkSuid (s : String) : Bool :=
  let cs := s.toList
  cs.length == 36 &&
    (List.range 36).all (fun i =>
      if i == 8 || i == 13 || i == 18 || i == 23 then cs.getD i ' ' == '-'
      else isHexDigit (cs.getD i ' '))

/-- Modelled from the spec: `Cache.construct_key` of the base class (not
under src), called by `PostgresCache.get` with the comment "just check if
user_id and conversation_id are UUIDs".  Validation failure is reported as
InvalidIdentifier before any backend I/O; both identifiers are validated
unless `skip_user_id_check` is set. -/
def construct_key (user_id conversation_id : String)
    (skip_user_id_check : Bool) : Except PyError Unit :=
  if !skip_user_id_check && !(checkSuid user_id && checkSuid conversation_id)
  then .error (.invalidIdentifier "Invalid user ID or conversation ID")
  else .ok ()

/-- The composite primary key of a row. -/
def rowKey (r : ConversationRecord) : String × String :=
  (r.user_id, r.conversation_id)

/-- Evaluation of `WHERE user_id=%s AND conversation_id=%s` (+ `LIMIT 1`):
the first matching row, unique in reachable states thanks to the primary
key. -/
def findRow (rows : List ConversationRecord) (u c : String) :
    Option ConversationRecord :=
  rows.find? (fun r => r.user_id == u && r.conversation_id == c)

/-- The `PRIMARY KEY(user_id, conversation_id)` constraint on the table. -/
def KeysUnique (rows : List ConversationRecord) : Prop :=
  (rows.map rowKey).Nodup

instance : DecidablePred KeysUnique := fun rows =>
  inferInstanceAs (Decidable ((rows.map rowKey).Nodup))

/-- Comparison used by `ORDER BY updated_at` (ascending). -/
def byAge (a b : ConversationRecord) : Prop :=
  a.updated_at ≤ b.updated_at

instance : DecidableRel byAge := fun a b =>
  inferInstanceAs (Decidable (a.updated_at ≤ b.updated_at))

instance : IsTotal ConversationRecord byAge :=
  ⟨fun a b => Nat.le_total a.updated_at b.updated_at⟩

instance : IsTrans ConversationRecord byAge :=
  ⟨fun _ _ _ hab hbc => Nat.le_trans hab hbc⟩

/-- Rows in `ORDER BY updated_at` ascending order.  The backend's order among
equal timestamps is unspecified; the model fixes one deterministic order. -/
def sortByUpdatedAt (rows : List ConversationRecord) :
    List ConversationRecord :=
  List.insertionSort byAge rows

/-- Outcome of one public cache method: the Python return value or the
raised exception, the database state afterwards, and how many SQL statements
were issued (the backend call counter of the spec's testable property). -/
structure OpResult (α : Type) where
  result : Except PyError α
  db : DB
  backendCalls : Nat
deriving Repr

instance {ε α : Type} [DecidableEq ε] [DecidableEq α] :
    DecidableEq (Except ε α) := fun a b =>
  match a, b with
  | .ok x, .ok y =>
    if h : x = y then .isTrue (by simp [h]) else .isFalse (by simp [h])
  | .error x, .error y =>
    if h : x = y then .isTrue (by simp [h]) else .isFalse (by simp [h])
  | .ok _, .error _ => .isFalse (by simp)
  | .error _, .ok _ => .isFalse (by simp)

/-- Truth of "the call raised InvalidIdentifier". -/
def isInvalidId {α : Type} : Except PyError α → Bool
  | .error (.invalidIdentifier _) => true
  | _ => false

/-- Truth of "the call raised CacheError" (the spec's StorageError). -/
def isWrappedErr {α : Type} : Except PyError α → Bool
  | .error (.cacheError _ _) => true
  | _ => false

namespace PostgresCache

/-- The `except psycopg2.DatabaseError as e: raise CacheError(op, e)` clause
of every public method: a DatabaseError is wrapped with the failing
operation's name; any other exception propagates unwrapped. -/
def wrapErr (op : String) (e : PyError) : PyError :=
  if e.isDatabaseError then .cacheError op e else e

/-- Embedding of `PostgresCache._select`: execute
`SELECT_CONVERSATION_HISTORY_STATEMENT`, fetch the row, return `None` when
absent, otherwise decode utf-8 and deserialize with `json.loads` — which
raises a ValueError-like exception on a malformed payload. -/
def _select (db : DB) (u c : String) :
    Except PyError (Option (List CacheEntry)) :=
  if db.healthy then
    match findRow db.rows u c with
    | none => .ok none
    | some r =>
      match r.value with
      | .wellFormed l => .ok (some l)
      | .malformed raw => .error (.valueError raw)
  else .error (.databaseError "connection failure")

/-- Embedding of `PostgresCache._update`: execute
`UPDATE_CONVERSATION_HISTORY_STATEMENT`, which sets `value` and
`updated_at=CURRENT_TIMESTAMP` on the rows matching the key and touches no
other column and no other row. -/
def _update (db : DB) (u c : String) (value : Blob) : Except PyError DB :=
  if db.healthy then
    .ok { db with
      rows := db.rows.map (fun r =>
        if r.user_id == u && r.conversation_id == c then
          { r with value := value, updated_at := db.now }
        else r) }
  else .error (.databaseError "connection failure")

/-- Embedding of `PostgresCache._insert`: execute
`INSERT_CONVERSATION_HISTORY_STATEMENT` with `updated_at=CURRENT_TIMESTAMP`;
inserting an already-present key violates the primary key constraint, a
DatabaseError. -/
def _insert (db : DB) (u c : String) (value : Blob) (topic_summary : String) :
    Except PyError DB :=
  if db.healthy then
    if (findRow db.rows u c).isSome then
      .error (.databaseError "duplicate key value violates unique constraint")
    else
      .ok { db with rows := db.rows ++ [⟨u, c, value, topic_summary, db.now⟩] }
  else .error (.databaseError "connection failure")

/-- Row-level effect of `PostgresCache._cleanup`: with `count` the total row
count and `limit = count - capacity`, when `limit > 0` execute
`DELETE_CONVERSATION_HISTORY_STATEMENT` with `LIMIT limit` — delete the rows
whose key is among the first `limit` rows in `ORDER BY updated_at` ascending
order. -/
def cleanupRows (rows : List ConversationRecord) (capacity : Int) :
    List ConversationRecord :=
  if 0 < (rows.length : Int) - capacity then
    rows.filter (fun r =>
      !(((sortByUpdatedAt rows).take ((rows.length : Int) - capacity).toNat).any
        (fun v => decide (rowKey v = rowKey r))))
  else rows

/-- Embedding of `PostgresCache._cleanup`: execute `QUERY_CACHE_SIZE`, then
the bounded DELETE when the count exceeds the capacity.  Also returns how
many statements were executed (1 or 2). -/
def _cleanup (db : DB) (capacity : Int) : Except PyError (DB × Nat) :=
  if db.healthy then
    .ok ({ db with rows := cleanupRows db.rows capacity },
      if 0 < (db.rows.length : Int) - capacity then 2 else 1)
  else .error (.databaseError "connection failure")

/-- Embedding of `PostgresCache._delete`: execute
`DELETE_SINGLE_CONVERSATION_STATEMENT` (autocommitted, so the matching row is
removed), then call `cursor.fetchone()` — a DELETE statement produces no
result set, so psycopg2 raises `ProgrammingError("no results to fetch")`. -/
def _delete (db : DB) (u c : String) : Except PyError Bool × DB :=
  if db.healthy then
    let db' := { db with
      rows := db.rows.filter (fun r =>
        !(r.user_id == u && r.conversation_id == c)) }
    (.error (.programmingError "no results to fetch"), db')
  else (.error (.databaseError "connection failure"), db)

/-- Embedding of `PostgresCache.get`: validate the identifiers via
`construct_key` before any backend work, then `_select` and convert, with
`except psycopg2.DatabaseError` wrapping into `CacheError("PostgresCache.get",
e)`. -/
def get (db : DB) (user_id conversation_id : String)
    (skip_user_id_check : Bool := false) : OpResult (List CacheEntry) :=
  match construct_key user_id conversation_id skip_user_id_check with
  | .error e => ⟨.error e, db, 0⟩
  | .ok _ =>
    match _select db user_id conversation_id with
    | .ok none => ⟨.ok [], db, 1⟩
    | .ok (some history) => ⟨.ok history, db, 1⟩
    | .error e => ⟨.error (wrapErr "PostgresCache.get" e), db, 1⟩

/-- Embedding of `PostgresCache.insert_or_append`.  Faithful to the source:
no `construct_key` call is made (the `skip_user_id_check` parameter is
accepted and documented but unused).  `_select` the old value; if it is
truthy (a non-empty stored list) append the new entry and `_update`; else
`_insert` a fresh single-entry row and run `_cleanup`.  A DatabaseError
anywhere is wrapped into `CacheError("PostgresCache.insert_or_append", e)`;
any other exception propagates unwrapped. -/
def insert_or_append (db : DB) (capacity : Int)
    (user_id conversation_id : String) (cache_entry : CacheEntry)
    (topic_summary : String := "") (skip_user_id_check : Bool := false) :
    OpResult Unit :=
  match _select db user_id conversation_id with
  | .error e =>
    ⟨.error (wrapErr "PostgresCache.insert_or_append" e), db, 1⟩
  | .ok old_value =>
    match old_value with
    | some (x :: xs) =>
      match _update db user_id conversation_id
          (.wellFormed ((x :: xs) ++ [cache_entry])) with
      | .ok db2 => ⟨.ok (), { db2 with now := db2.now + 1 }, 2⟩
      | .error e =>
        ⟨.error (wrapErr "PostgresCache.insert_or_append" e), db, 2⟩
    | _ =>
      match _insert db user_id conversation_id (.wellFormed [cache_entry])
          topic_summary with
      | .error e =>
        ⟨.error (wrapErr "PostgresCache.insert_or_append" e), db, 2⟩
      | .ok db2 =>
        match _cleanup db2 capacity with
        | .ok (db3, n) => ⟨.ok (), { db3 with now := db3.now + 1 }, 2 + n⟩
        | .error e =>
          ⟨.error (wrapErr "PostgresCache.insert_or_append" e), db2, 3⟩

/-- Embedding of `PostgresCache.delete`: no identifier validation; `_delete`
and wrap DatabaseError into `CacheError("PostgresCache.delete", e)`. -/
def delete (db : DB) (user_id conversation_id : String)
    (skip_user_id_check : Bool := false) : OpResult Bool :=
  match _delete db user_id conversation_id with
  | (.ok existed, db') => ⟨.ok existed, db', 1⟩
  | (.error e, db') =>
    ⟨.error (wrapErr "PostgresCache.delete" e), db', 1⟩

/-- Embedding of `PostgresCache.list`: no identifier validation; execute
`LIST_CONVERSATIONS_STATEMENT` (`WHERE user_id=%s ORDER BY updated_at DESC`)
and return `(conversation_id, topic_summary)` pairs, wrapping DatabaseError
into `CacheError("PostgresCache.list", e)`. -/
def list (db : DB) (user_id : String) (skip_user_id_check : Bool := false) :
    OpResult (List (String × String)) :=
  if db.healthy then
    let rows := List.insertionSort (fun a b => byAge b a)
      (db.rows.filter (fun r => r.user_id == user_id))
    ⟨.ok (rows.map (fun r => (r.conversation_id, r.topic_summary))), db, 1⟩
  else
    ⟨.error (wrapErr "PostgresCache.list"
      (.databaseError "connection failure")), db, 1⟩

end PostgresCache

/-- Arguments of one `insert_or_append` call in a call sequence. -/
structure CallArgs where
  user_id : String
  conversation_id : String
  entry : CacheEntry
  topic_summary : String
deriving DecidableEq, Repr

/-- Run a sequence of `insert_or_append` calls, threading the database
state. -/
def runCalls (capacity : Int) (db : DB) : List CallArgs → DB
  | [] => db
  | a :: rest =>
    runCalls capacity
      (PostgresCache.insert_or_append db capacity a.user_id a.conversation_id
        a.entry a.topic_summary false).db rest

/-- Run a sequence of `insert_or_append` calls on one key, threading the
database state. -/
def runAppends (capacity : Int) (db : DB) (u c : String) :
    List CacheEntry → DB
  | [] => db
  | e :: es =>
    runAppends capacity (PostgresCache.insert_or_append db capacity u c e "" false).db
      u c es

/-- Every call in a sequence of `insert_or_append` calls on one key returns
successfully. -/
def runAppendsOk (capacity : Int) (db : DB) (u c : String) :
    List CacheEntry → Prop
  | [] => True
  | e :: es =>
    (PostgresCache.insert_or_append db capacity u c e "" false).result = .ok () ∧
      runAppendsOk capacity
        (PostgresCache.insert_or_append db capacity u c e "" false).db u c es

/-- Modelled from the spec: the concrete quota limiter implementation is not
under src (only the abstract `QuotaLimiter` interface in
`ols/src/quota/quota_limiter.py` is).  The spec's QuotaRecord maps a subject
identifier to a remaining-quota counter. -/
structure QuotaState where
  budget : String → Int

/-- Embedding of `QuotaLimiter.available_quota`: the subject's current
remaining budget. -/
def available_quota (st : QuotaState) (subject_id : String) : Int :=
  st.budget subject_id

/-- Modelled from the spec: `consume_tokens(input_tokens, output_tokens,
subject_id="")` "atomically decrements the subject's remaining budget by the
sum of input and output token counts; must not allow the counter to go
negative — a request whose token cost exceeds the remaining balance either
clamps at zero or fails"; the clamp-at-zero policy is the one modelled, as
the spec's open question instructs implementers to pick one policy and keep
it. -/
def consume_tokens (st : QuotaState) (input_tokens output_tokens : Nat)
    (subject_id : String := "") : QuotaState :=
  ⟨fun s =>
    if s = subject_id then
      max (st.budget subject_id - ((input_tokens : Int) + output_tokens)) 0
    else st.budget s⟩

/-- Run a sequence of `consume_tokens` calls
(input tokens, output tokens, subject). -/
def runConsume (st : QuotaState) : List (Nat × Nat × String) → QuotaState
  | [] => st
  | (i, o, s) :: rest => runConsume (consume_tokens st i o s) rest

/-! ### Helper lemmas about the embedding -/

theorem findRow_eq_none {rows : List ConversationRecord} {u c : String} :
    findRow rows u c = none ↔
      ∀ r ∈ rows, ¬(r.user_id = u ∧ r.conversation_id = c) := by
  simp [findRow, List.find?_eq_none]

theorem findRow_eq_some {rows : List ConversationRecord} {u c : String}
    {r : ConversationRecord} (h : findRow rows u c = some r) :
    r ∈ rows ∧ r.user_id = u ∧ r.conversation_id = c := by
  have h1 := List.find?_some h
  have h2 := List.mem_of_find?_eq_some h
  simp only [Bool.and_eq_true, beq_iff_eq] at h1
  exact ⟨h2, h1.1, h1.2⟩

theorem findRow_map_preserve (rows : List ConversationRecord) (u c : String)
    (f : ConversationRecord → ConversationRecord)
    (hf : ∀ r, (f r).user_id = r.user_id ∧
      (f r).conversation_id = r.conversation_id) :
    findRow (rows.map f) u c = (findRow rows u c).map f := by
  unfold findRow
  rw [List.find?_map]
  have hp : ((fun r => r.user_id == u && r.conversation_id == c) ∘ f)
      = (fun r : ConversationRecord =>
          r.user_id == u && r.conversation_id == c) := by
    funext r
    simp [Function.comp, (hf r).1, (hf r).2]
  rw [hp]

theorem keysUnique_map_preserve {rows : List ConversationRecord}
    (f : ConversationRecord → ConversationRecord)
    (hf : ∀ r, rowKey (f r) = rowKey r) (hU : KeysUnique rows) :
    KeysUnique (rows.map f) := by
  unfold KeysUnique at *
  rw [List.map_map]
  have : rowKey ∘ f = rowKey := funext hf
  rw [this]
  exact hU

/-- The append branch of `insert_or_append` in closed form: when the backend
is healthy and a non-empty record is stored under the key, the call succeeds
after exactly two statements (SELECT, UPDATE) and the new state maps each
matching row to one with the appended value and a refreshed timestamp,
leaving every other row untouched. -/
theorem append_branch_eq (db : DB) (K : Int) (u c t : String) (e : CacheEntry)
    (skip : Bool) (r : ConversationRecord) (l : List CacheEntry)
    (hH : db.healthy = true) (hr : findRow db.rows u c = some r)
    (hv : r.value = .wellFormed l) (hne : l ≠ []) :
    PostgresCache.insert_or_append db K u c e t skip =
      ⟨.ok (),
        { db with
          rows := db.rows.map (fun x =>
            if x.user_id == u && x.conversation_id == c then
              { x with value := .wellFormed (l ++ [e]), updated_at := db.now }
            else x),
          now := db.now + 1 },
        2⟩ := by
  obtain ⟨x, xs, rfl⟩ : ∃ x xs, l = x :: xs := by
    cases l with
    | nil => exact absurd rfl hne
    | cons x xs => exact ⟨x, xs, rfl⟩
  simp [PostgresCache.insert_or_append, PostgresCache._select,
    PostgresCache._update, hH, hr, hv]

/-- Shape of the table after any `insert_or_append` call: either unchanged
(an error path), or a key-preserving per-row update (the append branch), or
the freshly inserted row followed by cleanup (the insert branch). -/
theorem insert_or_append_rows_cases (db : DB) (K : Int) (u c t : String)
    (e : CacheEntry) (skip : Bool) :
    (PostgresCache.insert_or_append db K u c e t skip).db.rows = db.rows ∨
    (∃ f : ConversationRecord → ConversationRecord,
      (∀ x, rowKey (f x) = rowKey x) ∧
      (PostgresCache.insert_or_append db K u c e t skip).db.rows
        = db.rows.map f) ∨
    (findRow db.rows u c = none ∧ db.healthy = true ∧
      (PostgresCache.insert_or_append db K u c e t skip).db.rows
        = PostgresCache.cleanupRows
            (db.rows ++ [⟨u, c, .wellFormed [e], t, db.now⟩]) K) := by
  cases hH : db.healthy with
  | false =>
    left
    simp [PostgresCache.insert_or_append, PostgresCache._select, hH]
  | true =>
    cases hfind : findRow db.rows u c with
    | none =>
      right; right
      refine ⟨rfl, rfl, ?_⟩
      simp [PostgresCache.insert_or_append, PostgresCache._select,
        PostgresCache._insert, PostgresCache._cleanup, hH, hfind]
    | some r =>
      cases hv : r.value with
      | malformed raw =>
        left
        simp [PostgresCache.insert_or_append, PostgresCache._select, hH,
          hfind, hv]
      | wellFormed l =>
        cases l with
        | nil =>
          left
          simp [PostgresCache.insert_or_append, PostgresCache._select,
            PostgresCache._insert, hH, hfind, hv]
        | cons x xs =>
          right; left
          refine ⟨?_, ?_, ?_⟩
          · exact fun y =>
              if y.user_id == u && y.conversation_id == c then
                { y with value := Blob.wellFormed ((x :: xs) ++ [e]),
                         updated_at := db.now }
              else y
          · intro y
            by_cases hy : (y.user_id == u && y.conversation_id == c) = true <;>
              simp [rowKey, hy]
          · simp [PostgresCache.insert_or_append, PostgresCache._select,
              PostgresCache._update, hH, hfind, hv]

/-- Cleanup preserves the primary key constraint. -/
theorem keysUnique_cleanupRows (rows : List ConversationRecord) (K : Int)
    (hU : KeysUnique rows) : KeysUnique (PostgresCache.cleanupRows rows K) := by
  unfold PostgresCache.cleanupRows
  split
  · exact ((List.filter_sublist rows).map rowKey).nodup hU
  · exact hU

/-- Cleanup removes only rows (it is a filter or the identity). -/
theorem cleanupRows_sublist (rows : List ConversationRecord) (K : Int) :
    (PostgresCache.cleanupRows rows K).Sublist rows := by
  unfold PostgresCache.cleanupRows
  split
  · exact List.filter_sublist rows
  · exact List.Sublist.refl rows

/-- Under the primary key constraint the rows surviving cleanup are, up to
permutation, exactly the sorted rows minus the deleted oldest segment. -/
theorem cleanupRows_perm_drop (rows : List ConversationRecord) (K : Int)
    (hU : KeysUnique rows) (h : 0 < (rows.length : Int) - K) :
    (PostgresCache.cleanupRows rows K).Perm
      ((sortByUpdatedAt rows).drop ((rows.length : Int) - K).toNat) := by
  unfold PostgresCache.cleanupRows
  rw [if_pos h]
  set s := sortByUpdatedAt rows with hs
  set k := ((rows.length : Int) - K).toNat with hk
  set p : ConversationRecord → Bool := fun r =>
    !((s.take k).any (fun v => decide (rowKey v = rowKey r))) with hp
  have hperm : rows.Perm s := (List.perm_insertionSort byAge rows).symm
  have hUs : (s.map rowKey).Nodup := ((hperm.map rowKey).nodup_iff).mp hU
  have hsplit : s.take k ++ s.drop k = s := List.take_append_drop k s
  have hUapp : ((s.take k).map rowKey ++ (s.drop k).map rowKey).Nodup := by
    rw [← List.map_append, hsplit]; exact hUs
  have hdisj := (List.nodup_append.mp hUapp).2.2
  have hfilter1 : (s.take k).filter p = [] := by
    rw [List.filter_eq_nil_iff]
    intro v hv
    have hany : (s.take k).any (fun w => decide (rowKey w = rowKey v)) = true := by
      rw [List.any_eq_true]
      exact ⟨v, hv, decide_eq_true rfl⟩
    simp [hp, hany]
  have hfilter2 : (s.drop k).filter p = s.drop k := by
    rw [List.filter_eq_self]
    intro a ha
    have hany : (s.take k).any (fun v => decide (rowKey v = rowKey a)) = false := by
      rw [List.any_eq_false]
      intro v hv hdec
      have hkey : rowKey v = rowKey a := of_decide_eq_true hdec
      exact hdisj (List.mem_map_of_mem rowKey hv)
        (hkey ▸ List.mem_map_of_mem rowKey ha)
    simp [hp, hany]
  have hsf : s.filter p = s.drop k := by
    conv_lhs => rw [← hsplit]
    rw [List.filter_append, hfilter1, hfilter2, List.nil_append]
  have hfin := hperm.filter p
  rw [hsf] at hfin
  exact hfin

/-- Number of rows after cleanup: the minimum of the row count and the
capacity clamped at zero.  Hence exactly `overflow = N - capacity` rows are
deleted when `0 ≤ capacity` and the count overflows, and all `N` rows are
deleted when `capacity < 0`. -/
theorem cleanupRows_length (rows : List ConversationRecord) (K : Int)
    (hU : KeysUnique rows) :
    (PostgresCache.cleanupRows rows K).length = min rows.length K.toNat := by
  by_cases h : 0 < (rows.length : Int) - K
  · have hlen := (cleanupRows_perm_drop rows K hU h).length_eq
    rw [hlen, List.length_drop]
    unfold sortByUpdatedAt
    rw [List.length_insertionSort]
    omega
  · unfold PostgresCache.cleanupRows
    rw [if_neg h]
    omega

/-- The rows cleanup deletes are globally the oldest: every deleted row has
an `updated_at` not exceeding that of any surviving row. -/
theorem cleanupRows_oldest (rows : List ConversationRecord) (K : Int)
    (hU : KeysUnique rows) :
    ∀ a ∈ rows, a ∉ PostgresCache.cleanupRows rows K →
      ∀ b ∈ PostgresCache.cleanupRows rows K, a.updated_at ≤ b.updated_at := by
  intro a ha hnota b hb
  by_cases h : 0 < (rows.length : Int) - K
  case neg =>
    exfalso
    apply hnota
    unfold PostgresCache.cleanupRows
    rw [if_neg h]
    exact ha
  case pos =>
    have hperm : rows.Perm (sortByUpdatedAt rows) :=
      (List.perm_insertionSort byAge rows).symm
    have hpermc := cleanupRows_perm_drop rows K hU h
    set s := sortByUpdatedAt rows with hs
    set k := ((rows.length : Int) - K).toNat with hk
    have hbmem : b ∈ s.drop k := hpermc.mem_iff.mp hb
    -- a was deleted, i.e. its key is among the victims; by key uniqueness a
    -- itself is a victim
    have hamem : a ∈ s.take k := by
      have hcl : a ∉ rows.filter (fun r =>
          !((s.take k).any (fun v => decide (rowKey v = rowKey r)))) := by
        intro hmem
        apply hnota
        unfold PostgresCache.cleanupRows
        rw [if_pos h]
        exact hmem
      have hpa : ((s.take k).any
          (fun v => decide (rowKey v = rowKey a))) = true := by
        by_contra hcon
        apply hcl
        apply List.mem_filter.mpr
        refine ⟨ha, ?_⟩
        simp only [Bool.not_eq_true] at hcon
        simp [hcon]
      rw [List.any_eq_true] at hpa
      obtain ⟨v, hv, hdec⟩ := hpa
      have hkey : rowKey v = rowKey a := of_decide_eq_true hdec
      have hvrows : v ∈ rows := hperm.mem_iff.mpr (List.mem_of_mem_take hv)
      have hva : v = a := List.inj_on_of_nodup_map hU hvrows ha hkey
      exact hva ▸ hv
    have hsorted : List.Pairwise byAge s := List.sorted_insertionSort byAge rows
    have hpw := (List.pairwise_append.mp
      ((List.take_append_drop k s).symm ▸ hsorted)).2.2
    exact hpw a hamem b hbmem

/-- Inserting a key that is absent preserves the primary key constraint. -/
theorem keysUnique_append_new (rows : List ConversationRecord) (u c : String)
    (v : Blob) (t : String) (n : Nat) (hU : KeysUnique rows)
    (hfind : findRow rows u c = none) :
    KeysUnique (rows ++ [⟨u, c, v, t, n⟩]) := by
  unfold KeysUnique
  rw [List.map_append, List.nodup_append]
  refine ⟨hU, List.nodup_singleton _, ?_⟩
  intro key hkey1 hkey2
  simp only [List.map_cons, List.map_nil, List.mem_singleton] at hkey2
  rw [List.mem_map] at hkey1
  obtain ⟨r, hr, hrk⟩ := hkey1
  have := findRow_eq_none.mp hfind r hr
  apply this
  have : rowKey r = (u, c) := by rw [hrk, hkey2]; rfl
  exact ⟨congrArg Prod.fst this, congrArg Prod.snd this⟩

/-- One `insert_or_append` call preserves the primary key constraint and the
capacity bound `max capacity 0`. -/
theorem goodDB_step (db : DB) (K : Int) (u c t : String) (e : CacheEntry)
    (skip : Bool) (hU : KeysUnique db.rows)
    (hlen : (db.rows.length : Int) ≤ max K 0) :
    KeysUnique (PostgresCache.insert_or_append db K u c e t skip).db.rows ∧
    (((PostgresCache.insert_or_append db K u c e t skip).db.rows.length : Int)
      ≤ max K 0) := by
  rcases insert_or_append_rows_cases db K u c t e skip with
    heq | ⟨f, hf, heq⟩ | ⟨hfind, _, heq⟩
  · rw [heq]; exact ⟨hU, hlen⟩
  · rw [heq]
    refine ⟨keysUnique_map_preserve f hf hU, ?_⟩
    rw [List.length_map]
    exact hlen
  · rw [heq]
    have hnew : KeysUnique (db.rows ++ [⟨u, c, .wellFormed [e], t, db.now⟩]) :=
      keysUnique_append_new db.rows u c (.wellFormed [e]) t db.now hU hfind
    refine ⟨keysUnique_cleanupRows _ K hnew, ?_⟩
    rw [cleanupRows_length _ K hnew]
    omega

/-- Any sequence of `insert_or_append` calls preserves the primary key
constraint and the capacity bound. -/
theorem runCalls_capacity (K : Int) (calls : List CallArgs) :
    ∀ db : DB, KeysUnique db.rows → (db.rows.length : Int) ≤ max K 0 →
      KeysUnique (runCalls K db calls).rows ∧
        ((runCalls K db calls).rows.length : Int) ≤ max K 0 := by
  induction calls with
  | nil => intro db hU hlen; exact ⟨hU, hlen⟩
  | cons a rest ih =>
    intro db hU hlen
    have hstep := goodDB_step db K a.user_id a.conversation_id a.topic_summary
      a.entry false hU hlen
    exact ih _ hstep.1 hstep.2

/-! ### Claim theorems -/

/-- C1 counterexample: with capacity K = -1 and one `insert_or_append` into an
empty table, the insert branch runs with N = 1 row counted (the just-inserted
one) and overflow = N - K = 2 > 0, but only N - 0 = 1 record is actually
deleted — the claim's "deletes exactly overflow records" is false: the SQL
DELETE cannot remove more rows than exist. -/
theorem C1_counterexample :
    (PostgresCache.insert_or_append ⟨[], 0, true⟩ (-1) "u" "c" ⟨"q"⟩ "t"
      false).db.rows.length = 0 ∧
    ((1 : Int) - 0 ≠ 1 - (-1)) := by decide

/-- C1 (amended): for every capacity K, starting from any table satisfying
the primary key constraint whose size is at most max(K, 0), after every
`insert_or_append` call of any sequence the total number of records is at
most max(K, 0); whenever `_cleanup` runs on a table of N uniquely-keyed rows
it keeps exactly min(N, max(K, 0)) records — so when overflow = N - K > 0 it
deletes exactly min(overflow, N) records, which is exactly overflow whenever
K ≥ 0 — and the deleted records are the globally oldest by `updated_at`
across all users. -/
theorem C1_capacity_bound (K : Int) (db : DB) (calls : List CallArgs)
    (rows : List ConversationRecord) (hU : KeysUnique db.rows)
    (hlen : (db.rows.length : Int) ≤ max K 0) (hUr : KeysUnique rows) :
    ((runCalls K db calls).rows.length : Int) ≤ max K 0 ∧
    (PostgresCache.cleanupRows rows K).length = min rows.length K.toNat ∧
    (0 < (rows.length : Int) - K →
      ((rows.length : Int) - (PostgresCache.cleanupRows rows K).length)
        = min ((rows.length : Int) - K) rows.length) ∧
    (∀ a ∈ rows, a ∉ PostgresCache.cleanupRows rows K →
      ∀ b ∈ PostgresCache.cleanupRows rows K, a.updated_at ≤ b.updated_at) := by
  refine ⟨(runCalls_capacity K calls db hU hlen).2,
    cleanupRows_length rows K hUr, ?_, cleanupRows_oldest rows K hUr⟩
  have hmin := cleanupRows_length rows K hUr
  intro hpos
  omega

/-- C1 witness: capacity 2 with three inserts on distinct keys starting from
the empty table, and a concrete three-row uniquely-keyed table. -/
theorem C1_capacity_bound_witness :
    (KeysUnique (DB.mk [] 0 true).rows ∧
      ((DB.mk [] 0 true).rows.length : Int) ≤ max 2 0 ∧
      KeysUnique [⟨"u", "c1", .wellFormed [⟨"a"⟩], "t", 0⟩,
        ⟨"u", "c2", .wellFormed [⟨"b"⟩], "t", 1⟩,
        ⟨"v", "c1", .wellFormed [⟨"d"⟩], "t", 2⟩]) ∧
    (((runCalls 2 (DB.mk [] 0 true)
        [⟨"u", "c1", ⟨"a"⟩, "t"⟩, ⟨"u", "c2", ⟨"b"⟩, "t"⟩,
          ⟨"v", "c1", ⟨"d"⟩, "t"⟩]).rows.length : Int) ≤ max 2 0 ∧
      (PostgresCache.cleanupRows [⟨"u", "c1", .wellFormed [⟨"a"⟩], "t", 0⟩,
        ⟨"u", "c2", .wellFormed [⟨"b"⟩], "t", 1⟩,
        ⟨"v", "c1", .wellFormed [⟨"d"⟩], "t", 2⟩] 2).length
          = min 3 (Int.toNat 2) ∧
      (0 < ((3 : Nat) : Int) - 2 →
        (((3 : Nat) : Int) - (PostgresCache.cleanupRows
          [⟨"u", "c1", .wellFormed [⟨"a"⟩], "t", 0⟩,
            ⟨"u", "c2", .wellFormed [⟨"b"⟩], "t", 1⟩,
            ⟨"v", "c1", .wellFormed [⟨"d"⟩], "t", 2⟩] 2).length)
          = min (((3 : Nat) : Int) - 2) ((3 : Nat) : Int)) ∧
      (∀ a ∈ [⟨"u", "c1", .wellFormed [⟨"a"⟩], "t", 0⟩,
          ⟨"u", "c2", .wellFormed [⟨"b"⟩], "t", 1⟩,
          ⟨"v", "c1", Blob.wellFormed [⟨"d"⟩], "t", 2⟩],
        a ∉ PostgresCache.cleanupRows [⟨"u", "c1", .wellFormed [⟨"a"⟩], "t", 0⟩,
          ⟨"u", "c2", .wellFormed [⟨"b"⟩], "t", 1⟩,
          ⟨"v", "c1", .wellFormed [⟨"d"⟩], "t", 2⟩] 2 →
        ∀ b ∈ PostgresCache.cleanupRows [⟨"u", "c1", .wellFormed [⟨"a"⟩], "t", 0⟩,
          ⟨"u", "c2", .wellFormed [⟨"b"⟩], "t", 1⟩,
          ⟨"v", "c1", .wellFormed [⟨"d"⟩], "t", 2⟩] 2,
          a.updated_at ≤ b.updated_at)) :=
  ⟨⟨by decide, by decide, by decide⟩,
    C1_capacity_bound 2 (DB.mk [] 0 true)
      [⟨"u", "c1", ⟨"a"⟩, "t"⟩, ⟨"u", "c2", ⟨"b"⟩, "t"⟩, ⟨"v", "c1", ⟨"d"⟩, "t"⟩]
      [⟨"u", "c1", .wellFormed [⟨"a"⟩], "t", 0⟩,
        ⟨"u", "c2", .wellFormed [⟨"b"⟩], "t", 1⟩,
        ⟨"v", "c1", .wellFormed [⟨"d"⟩], "t", 2⟩]
      (by decide) (by decide) (by decide)⟩

/-- C3 (code bug): `get` with a non-UUID identifier raises InvalidIdentifier
before any backend statement (zero backend calls), but `insert_or_append` on
the same malformed identifiers performs no validation at all: it issues three
backend statements (SELECT, INSERT, count), stores the record and returns
success instead of raising InvalidIdentifier. -/
theorem C3_missing_validation :
    (PostgresCache.get ⟨[], 0, true⟩ "not-a-uuid" "also-not" false).result
      = .error (.invalidIdentifier "Invalid user ID or conversation ID") ∧
    (PostgresCache.get ⟨[], 0, true⟩ "not-a-uuid" "also-not"
      false).backendCalls = 0 ∧
    (PostgresCache.insert_or_append ⟨[], 0, true⟩ 10 "not-a-uuid" "also-not"
      ⟨"q"⟩ "t" false).result = .ok () ∧
    (PostgresCache.insert_or_append ⟨[], 0, true⟩ 10 "not-a-uuid" "also-not"
      ⟨"q"⟩ "t" false).backendCalls = 3 ∧
    (PostgresCache.insert_or_append ⟨[], 0, true⟩ 10 "not-a-uuid" "also-not"
      ⟨"q"⟩ "t" false).db.rows.length = 1 ∧
    isInvalidId (PostgresCache.insert_or_append ⟨[], 0, true⟩ 10 "not-a-uuid"
      "also-not" ⟨"q"⟩ "t" false).result = false := by decide

/-- C4 (code bug): `delete` never returns a boolean.  `_delete` executes the
DELETE statement (which, under autocommit, removes the matching row) and then
calls `cursor.fetchone()`; a DELETE produces no result set, so psycopg2
raises ProgrammingError — a DatabaseError subclass — which `delete` wraps
into CacheError.  Deleting a nonexistent key and deleting an existing key
both raise CacheError instead of returning false/true; the existing row is
nevertheless removed. -/
theorem C4_delete_always_raises :
    (PostgresCache.delete ⟨[], 5, true⟩ "u" "c" false).result
      = .error (.cacheError "PostgresCache.delete"
          (.programmingError "no results to fetch")) ∧
    (PostgresCache.delete ⟨[], 5, true⟩ "u" "c" false).db.rows = [] ∧
    (PostgresCache.delete ⟨[⟨"u", "c", .wellFormed [⟨"q"⟩], "t", 0⟩], 1, true⟩
      "u" "c" false).result
      = .error (.cacheError "PostgresCache.delete"
          (.programmingError "no results to fetch")) ∧
    (PostgresCache.delete ⟨[⟨"u", "c", .wellFormed [⟨"q"⟩], "t", 0⟩], 1, true⟩
      "u" "c" false).db.rows = [] := by decide

/-- C6: on a healthy backend, `get` with valid identifiers returns the empty
sequence — not an error — when no record exists for the key, and leaves the
state untouched. -/
theorem C6_get_missing_returns_empty (db : DB) (u c : String)
    (hH : db.healthy = true) (hu : checkSuid u = true)
    (hc : checkSuid c = true) (hfind : findRow db.rows u c = none) :
    (PostgresCache.get db u c false).result = .ok [] ∧
    (PostgresCache.get db u c false).db = db := by
  simp [PostgresCache.get, construct_key, PostgresCache._select, hH, hu, hc,
    hfind]

/-- C6 witness: a healthy single-row table queried for an absent key with
canonical UUID identifiers. -/
theorem C6_get_missing_returns_empty_witness :
    ((DB.mk [⟨"3fa85f64-5717-4562-b3fc-2c963f66afa6",
        "7c9e6679-7425-40de-944b-e07fc1f90ae7", .wellFormed [⟨"q"⟩], "t", 0⟩]
        1 true).healthy = true ∧
      checkSuid "3fa85f64-5717-4562-b3fc-2c963f66afa6" = true ∧
      checkSuid "00000000-0000-0000-0000-000000000000" = true ∧
      findRow (DB.mk [⟨"3fa85f64-5717-4562-b3fc-2c963f66afa6",
        "7c9e6679-7425-40de-944b-e07fc1f90ae7", .wellFormed [⟨"q"⟩], "t", 0⟩]
        1 true).rows "3fa85f64-5717-4562-b3fc-2c963f66afa6"
        "00000000-0000-0000-0000-000000000000" = none) ∧
    ((PostgresCache.get (DB.mk [⟨"3fa85f64-5717-4562-b3fc-2c963f66afa6",
        "7c9e6679-7425-40de-944b-e07fc1f90ae7", .wellFormed [⟨"q"⟩], "t", 0⟩]
        1 true) "3fa85f64-5717-4562-b3fc-2c963f66afa6"
        "00000000-0000-0000-0000-000000000000" false).result = .ok [] ∧
      (PostgresCache.get (DB.mk [⟨"3fa85f64-5717-4562-b3fc-2c963f66afa6",
        "7c9e6679-7425-40de-944b-e07fc1f90ae7", .wellFormed [⟨"q"⟩], "t", 0⟩]
        1 true) "3fa85f64-5717-4562-b3fc-2c963f66afa6"
        "00000000-0000-0000-0000-000000000000" false).db
        = DB.mk [⟨"3fa85f64-5717-4562-b3fc-2c963f66afa6",
            "7c9e6679-7425-40de-944b-e07fc1f90ae7", .wellFormed [⟨"q"⟩], "t", 0⟩]
            1 true) :=
  ⟨⟨by decide, by decide, by decide, by decide⟩,
    C6_get_missing_returns_empty _ _ _ (by decide) (by decide) (by decide)
      (by decide)⟩

/-- C10: `delete` and `list` never raise InvalidIdentifier, for arbitrary —
however malformed — identifiers: no validation is performed and the strings
go straight into the query.  A key matching no row leaves `delete`'s state
unchanged, and a user with no rows makes `list` return the empty list. -/
theorem C10_no_validation (db : DB) (u c : String) (skip : Bool) :
    isInvalidId (PostgresCache.delete db u c skip).result = false ∧
    isInvalidId (PostgresCache.list db u skip).result = false ∧
    (findRow db.rows u c = none →
      (PostgresCache.delete db u c skip).db.rows = db.rows) ∧
    ((∀ r ∈ db.rows, r.user_id ≠ u) → db.healthy = true →
      (PostgresCache.list db u skip).result = .ok []) := by
  refine ⟨?_, ?_, ?_, ?_⟩
  · cases hH : db.healthy <;>
      simp [PostgresCache.delete, PostgresCache._delete,
        PostgresCache.wrapErr, PyError.isDatabaseError, isInvalidId, hH]
  · cases hH : db.healthy <;>
      simp [PostgresCache.list, PostgresCache.wrapErr,
        PyError.isDatabaseError, isInvalidId, hH]
  · intro hfind
    cases hH : db.healthy with
    | false => simp [PostgresCache.delete, PostgresCache._delete, hH]
    | true =>
      simp only [PostgresCache.delete, PostgresCache._delete, hH, if_true]
      have hself : db.rows.filter (fun r =>
          !(r.user_id == u && r.conversation_id == c)) = db.rows := by
        rw [List.filter_eq_self]
        intro r hr
        have hne := findRow_eq_none.mp hfind r hr
        simp only [Bool.not_eq_true', Bool.and_eq_false_iff, beq_eq_false_iff_ne]
        by_cases h1 : r.user_id = u
        · exact Or.inr (fun h2 => hne ⟨h1, h2⟩)
        · exact Or.inl h1
      exact congrArg DB.rows (congrArg (fun rs => DB.mk rs db.now db.healthy)
        hself)
  · intro hnone hH
    have hfilter : db.rows.filter (fun r => r.user_id == u) = [] := by
      rw [List.filter_eq_nil_iff]
      intro r hr
      simpa using hnone r hr
    simp [PostgresCache.list, hH, hfilter]

/-- C10 witness: malformed identifiers on a healthy one-row table whose only
row belongs to a different user. -/
theorem C10_no_validation_witness :
    (findRow (DB.mk [⟨"other", "c9", .wellFormed [⟨"q"⟩], "t", 0⟩] 1
        true).rows "%%bad%%" "also bad" = none ∧
      (∀ r ∈ (DB.mk [⟨"other", "c9", .wellFormed [⟨"q"⟩], "t", 0⟩] 1
        true).rows, r.user_id ≠ "%%bad%%")) ∧
    (isInvalidId (PostgresCache.delete (DB.mk [⟨"other", "c9",
        .wellFormed [⟨"q"⟩], "t", 0⟩] 1 true) "%%bad%%" "also bad"
        false).result = false ∧
      isInvalidId (PostgresCache.list (DB.mk [⟨"other", "c9",
        .wellFormed [⟨"q"⟩], "t", 0⟩] 1 true) "%%bad%%" false).result = false ∧
      (findRow (DB.mk [⟨"other", "c9", .wellFormed [⟨"q"⟩], "t", 0⟩] 1
          true).rows "%%bad%%" "also bad" = none →
        (PostgresCache.delete (DB.mk [⟨"other", "c9", .wellFormed [⟨"q"⟩],
          "t", 0⟩] 1 true) "%%bad%%" "also bad" false).db.rows
          = (DB.mk [⟨"other", "c9", .wellFormed [⟨"q"⟩], "t", 0⟩] 1
            true).rows) ∧
      ((∀ r ∈ (DB.mk [⟨"other", "c9", .wellFormed [⟨"q"⟩], "t", 0⟩] 1
          true).rows, r.user_id ≠ "%%bad%%") →
        (DB.mk [⟨"other", "c9", .wellFormed [⟨"q"⟩], "t", 0⟩] 1
          true).healthy = true →
        (PostgresCache.list (DB.mk [⟨"other", "c9", .wellFormed [⟨"q"⟩],
          "t", 0⟩] 1 true) "%%bad%%" false).result = .ok [])) :=
  ⟨⟨by decide, by decide⟩,
    C10_no_validation (DB.mk [⟨"other", "c9", .wellFormed [⟨"q"⟩], "t", 0⟩]
      1 true) "%%bad%%" "also bad" false⟩

/-- Auxiliary for C9: consuming never drives any nonnegative budget
negative. -/
theorem runConsume_nonneg (calls : List (Nat × Nat × String)) :
    ∀ st : QuotaState, (∀ s, 0 ≤ available_quota st s) →
      ∀ s, 0 ≤ available_quota (runConsume st calls) s := by
  induction calls with
  | nil => intro st h s; exact h s
  | cons call rest ih =>
    intro st h s
    rcases call with ⟨i, o, subj⟩
    apply ih
    intro s2
    simp only [consume_tokens, available_quota]
    split
    · exact le_max_right _ 0
    · exact h s2

/-- C9 (spec-modelled): starting from nonnegative budgets, after any sequence
of `consume_tokens` calls `available_quota` is never negative; a single
`consume_tokens` decrements the subject's budget by exactly
input_tokens + output_tokens, clamping at zero when the cost exceeds the
remaining balance. -/
theorem C9_quota_nonneg (st0 : QuotaState)
    (h0 : ∀ s, 0 ≤ available_quota st0 s)
    (calls : List (Nat × Nat × String)) (s subj : String) (i o : Nat) :
    0 ≤ available_quota (runConsume st0 calls) s ∧
    available_quota (consume_tokens st0 i o subj) subj
      = max (available_quota st0 subj - ((i : Int) + o)) 0 ∧
    (((i : Int) + o) ≤ available_quota st0 subj →
      available_quota (consume_tokens st0 i o subj) subj
        = available_quota st0 subj - ((i : Int) + o)) := by
  refine ⟨runConsume_nonneg calls st0 h0 s, ?_, ?_⟩
  · simp [consume_tokens, available_quota]
  · intro hle
    simp only [available_quota] at hle
    show (if subj = subj then
        max (st0.budget subj - ((i : Int) + o)) 0
      else st0.budget subj) = st0.budget subj - ((i : Int) + o)
    rw [if_pos rfl]
    omega

/-- C9 witness: budget 100 everywhere, one call consuming 30 + 30, then a
direct consumption of 20 + 30. -/
theorem C9_quota_nonneg_witness :
    (∀ s, 0 ≤ available_quota ⟨fun _ => 100⟩ s) ∧
    (0 ≤ available_quota (runConsume ⟨fun _ => 100⟩ [(30, 30, "u")]) "u" ∧
      available_quota (consume_tokens ⟨fun _ => 100⟩ 20 30 "u") "u"
        = max (available_quota ⟨fun _ => 100⟩ "u" - ((20 : Int) + 30)) 0 ∧
      (((20 : Int) + 30) ≤ available_quota ⟨fun _ => 100⟩ "u" →
        available_quota (consume_tokens ⟨fun _ => 100⟩ 20 30 "u") "u"
          = available_quota ⟨fun _ => 100⟩ "u" - ((20 : Int) + 30))) :=
  ⟨fun _ => by show (0 : Int) ≤ 100; decide,
    C9_quota_nonneg ⟨fun _ => 100⟩ (fun _ => by show (0 : Int) ≤ 100; decide)
      [(30, 30, "u")] "u" "u" 20 30⟩

/-- The insert branch of `insert_or_append` in closed form: on a healthy
backend with no stored record for the key, the call succeeds and the new
state is the old rows plus the fresh single-entry row, run through
`_cleanup`. -/
theorem insert_branch_eq (db : DB) (K : Int) (u c t : String) (e : CacheEntry)
    (skip : Bool) (hH : db.healthy = true) (hr : findRow db.rows u c = none) :
    (PostgresCache.insert_or_append db K u c e t skip).result = .ok () ∧
    (PostgresCache.insert_or_append db K u c e t skip).db
      = ⟨PostgresCache.cleanupRows
          (db.rows ++ [⟨u, c, .wellFormed [e], t, db.now⟩]) K,
        db.now + 1, true⟩ := by
  constructor <;>
    simp [PostgresCache.insert_or_append, PostgresCache._select,
      PostgresCache._insert, PostgresCache._cleanup, hH, hr]

/-- If the key's record survives the cleanup that follows its insertion, the
record found afterwards is exactly the freshly inserted row. -/
theorem survives_insert (db : DB) (K : Int) (u c t : String) (e : CacheEntry)
    (hr : findRow db.rows u c = none)
    (hs : (findRow (PostgresCache.cleanupRows
      (db.rows ++ [⟨u, c, .wellFormed [e], t, db.now⟩]) K) u c).isSome
        = true) :
    findRow (PostgresCache.cleanupRows
      (db.rows ++ [⟨u, c, .wellFormed [e], t, db.now⟩]) K) u c
      = some ⟨u, c, .wellFormed [e], t, db.now⟩ := by
  obtain ⟨r2, hr2⟩ := Option.isSome_iff_exists.mp hs
  have hkey := findRow_eq_some hr2
  have hmem : r2 ∈ db.rows ++ [⟨u, c, .wellFormed [e], t, db.now⟩] :=
    (cleanupRows_sublist _ K).subset hkey.1
  rw [List.mem_append] at hmem
  rcases hmem with hmem | hmem
  · exact absurd ⟨hkey.2.1, hkey.2.2⟩ (findRow_eq_none.mp hr r2 hmem)
  · rw [List.mem_singleton] at hmem
    rw [hr2, hmem]

/-- Appending a sequence of entries to a present, non-empty, well-formed
record keeps the backend healthy, makes every call succeed, and extends the
stored list by exactly those entries in order. -/
theorem runAppends_grow (K : Int) (u c : String) (es : List CacheEntry) :
    ∀ (db : DB) (r : ConversationRecord) (l : List CacheEntry),
      db.healthy = true → findRow db.rows u c = some r →
      r.value = .wellFormed l → l ≠ [] →
      (runAppends K db u c es).healthy = true ∧
      runAppendsOk K db u c es ∧
      ∃ r2, findRow (runAppends K db u c es).rows u c = some r2 ∧
        r2.value = .wellFormed (l ++ es) := by
  induction es with
  | nil =>
    intro db r l hH hr hv _
    exact ⟨hH, trivial, ⟨r, hr, by simp [hv]⟩⟩
  | cons e es ih =>
    intro db r l hH hr hv hne
    have hkey := findRow_eq_some hr
    have heq := append_branch_eq db K u c "" e false r l hH hr hv hne
    set f : ConversationRecord → ConversationRecord := fun x =>
      if x.user_id == u && x.conversation_id == c then
        { x with value := .wellFormed (l ++ [e]), updated_at := db.now }
      else x with hf
    have hdb1 : (PostgresCache.insert_or_append db K u c e "" false).db
        = { db with rows := db.rows.map f, now := db.now + 1 } := by
      rw [heq]
    have hres1 : (PostgresCache.insert_or_append db K u c e ""
        false).result = .ok () := by
      rw [heq]
    have hpres : ∀ x : ConversationRecord, (f x).user_id = x.user_id ∧
        (f x).conversation_id = x.conversation_id := by
      intro x
      simp only [hf]
      split <;> exact ⟨rfl, rfl⟩
    have hfr : findRow (db.rows.map f) u c = some (f r) := by
      rw [findRow_map_preserve db.rows u c f hpres, hr]
      rfl
    have hfr2 : f r
        = { r with value := .wellFormed (l ++ [e]), updated_at := db.now } := by
      simp [hf, hkey.2.1, hkey.2.2]
    have hstep := ih { db with rows := db.rows.map f, now := db.now + 1 }
      (f r) (l ++ [e]) (by simp [hH]) hfr (by rw [hfr2]) (by simp)
    obtain ⟨hH2, hok2, r2, hfind2, hval2⟩ := hstep
    have hun : runAppends K db u c (e :: es)
        = runAppends K { db with rows := db.rows.map f, now := db.now + 1 }
            u c es := by
      show runAppends K (PostgresCache.insert_or_append db K u c e ""
        false).db u c es = _
      rw [hdb1]
    refine ⟨by rw [hun]; exact hH2, ?_, ?_⟩
    · show (PostgresCache.insert_or_append db K u c e "" false).result
          = .ok () ∧
        runAppendsOk K (PostgresCache.insert_or_append db K u c e ""
          false).db u c es
      exact ⟨hres1, by rw [hdb1]; exact hok2⟩
    · refine ⟨r2, by rw [hun]; exact hfind2, ?_⟩
      rw [hval2]
      simp

/-- With a nonpositive capacity, cleanup deletes every row: the victim
segment of the oldest-first ordering is the whole table, so each row's key
matches a victim and the filter removes it. -/
theorem cleanupRows_eq_nil_of_nonpos (rows : List ConversationRecord)
    (K : Int) (hK : K ≤ 0) : PostgresCache.cleanupRows rows K = [] := by
  unfold PostgresCache.cleanupRows
  split
  next h =>
    rw [List.filter_eq_nil_iff]
    intro r hr
    have hlen : (sortByUpdatedAt rows).length
        ≤ ((rows.length : Int) - K).toNat := by
      unfold sortByUpdatedAt
      rw [List.length_insertionSort]
      omega
    have htake : (sortByUpdatedAt rows).take ((rows.length : Int) - K).toNat
        = sortByUpdatedAt rows := List.take_of_length_le hlen
    rw [htake]
    have hmem : r ∈ sortByUpdatedAt rows :=
      ((List.perm_insertionSort byAge rows).mem_iff).mpr hr
    have hany : ((sortByUpdatedAt rows).any
        (fun v => decide (rowKey v = rowKey r))) = true := by
      rw [List.any_eq_true]
      exact ⟨r, hmem, decide_eq_true rfl⟩
    simp [hany]
  next h =>
    have hzero : rows.length = 0 := by omega
    exact List.length_eq_zero.mp hzero

/-- C2 counterexample: with capacity 0, a single successful insert_or_append
call (N = 1, the first and only call taking the insert branch) on an empty
healthy table is immediately followed by eviction of the just-inserted
record by the call's own cleanup: a subsequent get returns the empty list,
not the one inserted entry. -/
theorem C2_counterexample :
    findRow ((DB.mk [] 0 true).rows) "u" "c" = none ∧
    (PostgresCache.insert_or_append (DB.mk [] 0 true) 0 "u" "c" ⟨"a"⟩ "t"
      false).result = .ok () ∧
    (PostgresCache.get (PostgresCache.insert_or_append (DB.mk [] 0 true) 0
      "u" "c" ⟨"a"⟩ "t" false).db "u" "c" true).result = .ok [] ∧
    (Except.ok [] : Except PyError (List CacheEntry))
      ≠ .ok [(⟨"a"⟩ : CacheEntry)] := by decide

/-- C2 (amended): for every key and sequence of successful calls whose first
takes the insert branch: when the freshly inserted record survives that
call's own capacity eviction, the remaining calls take the append branch and
succeed, and a subsequent get returns exactly the inserted entries in
insertion order; when it does not survive — which is always the case when
capacity ≤ 0 — a subsequent get returns the empty sequence. -/
theorem C2_append_ordering (K : Int) (db0 : DB) (u c t : String)
    (e1 : CacheEntry) (es : List CacheEntry)
    (hH : db0.healthy = true) (h0 : findRow db0.rows u c = none) :
    (PostgresCache.insert_or_append db0 K u c e1 t false).result = .ok () ∧
    ((findRow (PostgresCache.insert_or_append db0 K u c e1 t
        false).db.rows u c).isSome = true →
      runAppendsOk K (PostgresCache.insert_or_append db0 K u c e1 t false).db
        u c es ∧
      (PostgresCache.get (runAppends K (PostgresCache.insert_or_append db0 K
        u c e1 t false).db u c es) u c true).result = .ok (e1 :: es)) ∧
    ((findRow (PostgresCache.insert_or_append db0 K u c e1 t
        false).db.rows u c).isSome = false →
      (PostgresCache.get (PostgresCache.insert_or_append db0 K u c e1 t
        false).db u c true).result = .ok []) ∧
    (K ≤ 0 →
      (findRow (PostgresCache.insert_or_append db0 K u c e1 t
        false).db.rows u c).isSome = false) := by
  obtain ⟨hres, hdb⟩ := insert_branch_eq db0 K u c t e1 false hH h0
  refine ⟨hres, ?_, ?_, ?_⟩
  · intro hsurv
    rw [hdb] at hsurv
    have hfound := survives_insert db0 K u c t e1 h0 hsurv
    have hgrow := runAppends_grow K u c es
      ⟨PostgresCache.cleanupRows
        (db0.rows ++ [⟨u, c, .wellFormed [e1], t, db0.now⟩]) K,
        db0.now + 1, true⟩
      ⟨u, c, .wellFormed [e1], t, db0.now⟩ [e1] rfl hfound rfl (by simp)
    obtain ⟨hH2, hok2, r2, hfind2, hval2⟩ := hgrow
    refine ⟨by rw [hdb]; exact hok2, ?_⟩
    rw [hdb]
    have hsel : PostgresCache._select (runAppends K
        ⟨PostgresCache.cleanupRows
          (db0.rows ++ [⟨u, c, .wellFormed [e1], t, db0.now⟩]) K,
          db0.now + 1, true⟩ u c es) u c = .ok (some ([e1] ++ es)) := by
      simp [PostgresCache._select, hH2, hfind2, hval2]
    simp [PostgresCache.get, construct_key, hsel]
  · intro hnone
    rw [hdb] at hnone ⊢
    have hfn : findRow (PostgresCache.cleanupRows
        (db0.rows ++ [⟨u, c, .wellFormed [e1], t, db0.now⟩]) K) u c
        = none := by
      cases hx : findRow (PostgresCache.cleanupRows
          (db0.rows ++ [⟨u, c, .wellFormed [e1], t, db0.now⟩]) K) u c with
      | none => rfl
      | some r =>
        rw [hx] at hnone
        simp at hnone
    simp [PostgresCache.get, construct_key, PostgresCache._select, hfn]
  · intro hK
    rw [hdb]
    simp only [cleanupRows_eq_nil_of_nonpos _ K hK]
    rfl

/-- C2 witness: an empty healthy table with capacity 10, one insert followed
by two appends on the same key. -/
theorem C2_append_ordering_witness :
    ((DB.mk [] 0 true).healthy = true ∧
      findRow (DB.mk [] 0 true).rows "u" "c" = none) ∧
    ((PostgresCache.insert_or_append (DB.mk [] 0 true) 10 "u" "c" ⟨"a"⟩ "t"
      false).result = .ok () ∧
    ((findRow (PostgresCache.insert_or_append (DB.mk [] 0 true) 10 "u" "c"
        ⟨"a"⟩ "t" false).db.rows "u" "c").isSome = true →
      runAppendsOk 10 (PostgresCache.insert_or_append (DB.mk [] 0 true) 10
        "u" "c" ⟨"a"⟩ "t" false).db "u" "c" [⟨"b"⟩, ⟨"d"⟩] ∧
      (PostgresCache.get (runAppends 10 (PostgresCache.insert_or_append
        (DB.mk [] 0 true) 10 "u" "c" ⟨"a"⟩ "t" false).db "u" "c"
        [⟨"b"⟩, ⟨"d"⟩]) "u" "c" true).result = .ok [⟨"a"⟩, ⟨"b"⟩, ⟨"d"⟩]) ∧
    ((findRow (PostgresCache.insert_or_append (DB.mk [] 0 true) 10 "u" "c"
        ⟨"a"⟩ "t" false).db.rows "u" "c").isSome = false →
      (PostgresCache.get (PostgresCache.insert_or_append (DB.mk [] 0 true)
        10 "u" "c" ⟨"a"⟩ "t" false).db "u" "c" true).result = .ok []) ∧
    ((10 : Int) ≤ 0 →
      (findRow (PostgresCache.insert_or_append (DB.mk [] 0 true) 10 "u" "c"
        ⟨"a"⟩ "t" false).db.rows "u" "c").isSome = false)) :=
  ⟨⟨by decide, by decide⟩,
    C2_append_ordering 10 (DB.mk [] 0 true) "u" "c" "t" ⟨"a"⟩ [⟨"b"⟩, ⟨"d"⟩]
      (by decide) (by decide)⟩

/-- Full specification of the append branch, shared by the frame claims:
success, unchanged row count, untouched other rows, and the updated record
with appended value, refreshed timestamp and untouched topic summary. -/
theorem append_branch_spec (db : DB) (K : Int) (u c t : String)
    (e : CacheEntry) (r : ConversationRecord) (l : List CacheEntry)
    (hH : db.healthy = true) (hr : findRow db.rows u c = some r)
    (hv : r.value = .wellFormed l) (hne : l ≠ []) :
    (PostgresCache.insert_or_append db K u c e t false).result = .ok () ∧
    (PostgresCache.insert_or_append db K u c e t false).db.rows.length
      = db.rows.length ∧
    (∀ x ∈ db.rows, ¬(x.user_id = u ∧ x.conversation_id = c) →
      x ∈ (PostgresCache.insert_or_append db K u c e t false).db.rows) ∧
    findRow (PostgresCache.insert_or_append db K u c e t false).db.rows u c
      = some { r with value := .wellFormed (l ++ [e]), updated_at := db.now }
    := by
  have hkey := findRow_eq_some hr
  have heq := append_branch_eq db K u c t e false r l hH hr hv hne
  set f : ConversationRecord → ConversationRecord := fun x =>
    if x.user_id == u && x.conversation_id == c then
      { x with value := .wellFormed (l ++ [e]), updated_at := db.now }
    else x with hf
  have hdb1 : (PostgresCache.insert_or_append db K u c e t false).db
      = { db with rows := db.rows.map f, now := db.now + 1 } := by
    rw [heq]
  have hres1 : (PostgresCache.insert_or_append db K u c e t false).result
      = .ok () := by
    rw [heq]
  have hpres : ∀ x : ConversationRecord, (f x).user_id = x.user_id ∧
      (f x).conversation_id = x.conversation_id := by
    intro x
    simp only [hf]
    split <;> exact ⟨rfl, rfl⟩
  refine ⟨hres1, ?_, ?_, ?_⟩
  · rw [hdb1]
    exact List.length_map db.rows f
  · intro x hx hnotkey
    rw [hdb1]
    show x ∈ db.rows.map f
    have hfx : f x = x := by
      simp only [hf]
      split
      next hcond2 =>
        simp only [Bool.and_eq_true, beq_iff_eq] at hcond2
        exact absurd hcond2 hnotkey
      next => rfl
    exact List.mem_map.mpr ⟨x, hx, hfx⟩
  · rw [hdb1]
    show findRow (db.rows.map f) u c = _
    rw [findRow_map_preserve db.rows u c f hpres, hr]
    have hfr3 : f r = { r with value := .wellFormed (l ++ [e]), updated_at := db.now } := by
      simp [hf, hkey.2.1, hkey.2.2]
    rw [Option.map_some', hfr3]

/-- C7: eviction never runs on the append branch: when a (non-empty,
well-formed) record is already stored under the key, `insert_or_append`
deletes no record of any key — the row count is unchanged and every row of a
different key survives untouched — and the appended record only grows. -/
theorem C7_append_no_eviction (db : DB) (K : Int) (u c t : String)
    (e : CacheEntry) (r : ConversationRecord) (l : List CacheEntry)
    (hH : db.healthy = true) (hr : findRow db.rows u c = some r)
    (hv : r.value = .wellFormed l) (hne : l ≠ []) :
    (PostgresCache.insert_or_append db K u c e t false).result = .ok () ∧
    (PostgresCache.insert_or_append db K u c e t false).db.rows.length
      = db.rows.length ∧
    (∀ x ∈ db.rows, ¬(x.user_id = u ∧ x.conversation_id = c) →
      x ∈ (PostgresCache.insert_or_append db K u c e t false).db.rows) ∧
    (∃ r2, findRow (PostgresCache.insert_or_append db K u c e t
        false).db.rows u c = some r2 ∧
      r2.value = .wellFormed (l ++ [e])) := by
  obtain ⟨h1, h2, h3, h4⟩ := append_branch_spec db K u c t e r l hH hr hv hne
  exact ⟨h1, h2, h3, ⟨_, h4, rfl⟩⟩

/-- C7 witness: a healthy two-row table, appending to the first key. -/
theorem C7_append_no_eviction_witness :
    ((DB.mk [⟨"u", "c", .wellFormed [⟨"a"⟩], "t", 0⟩,
        ⟨"v", "d", .wellFormed [⟨"b"⟩], "s", 1⟩] 2 true).healthy = true ∧
      findRow (DB.mk [⟨"u", "c", .wellFormed [⟨"a"⟩], "t", 0⟩,
        ⟨"v", "d", .wellFormed [⟨"b"⟩], "s", 1⟩] 2 true).rows "u" "c"
        = some ⟨"u", "c", .wellFormed [⟨"a"⟩], "t", 0⟩ ∧
      (⟨"u", "c", .wellFormed [⟨"a"⟩], "t", 0⟩ :
        ConversationRecord).value = .wellFormed [⟨"a"⟩] ∧
      ([⟨"a"⟩] : List CacheEntry) ≠ []) ∧
    ((PostgresCache.insert_or_append (DB.mk
        [⟨"u", "c", .wellFormed [⟨"a"⟩], "t", 0⟩,
          ⟨"v", "d", .wellFormed [⟨"b"⟩], "s", 1⟩] 2 true) 2 "u" "c" ⟨"e"⟩
        "" false).result = .ok () ∧
      (PostgresCache.insert_or_append (DB.mk
        [⟨"u", "c", .wellFormed [⟨"a"⟩], "t", 0⟩,
          ⟨"v", "d", .wellFormed [⟨"b"⟩], "s", 1⟩] 2 true) 2 "u" "c" ⟨"e"⟩
        "" false).db.rows.length
        = (DB.mk [⟨"u", "c", .wellFormed [⟨"a"⟩], "t", 0⟩,
            ⟨"v", "d", .wellFormed [⟨"b"⟩], "s", 1⟩] 2 true).rows.length ∧
      (∀ x ∈ (DB.mk [⟨"u", "c", .wellFormed [⟨"a"⟩], "t", 0⟩,
          ⟨"v", "d", .wellFormed [⟨"b"⟩], "s", 1⟩] 2 true).rows,
        ¬(x.user_id = "u" ∧ x.conversation_id = "c") →
        x ∈ (PostgresCache.insert_or_append (DB.mk
          [⟨"u", "c", .wellFormed [⟨"a"⟩], "t", 0⟩,
            ⟨"v", "d", .wellFormed [⟨"b"⟩], "s", 1⟩] 2 true) 2 "u" "c" ⟨"e"⟩
          "" false).db.rows) ∧
      (∃ r2, findRow (PostgresCache.insert_or_append (DB.mk
          [⟨"u", "c", .wellFormed [⟨"a"⟩], "t", 0⟩,
            ⟨"v", "d", .wellFormed [⟨"b"⟩], "s", 1⟩] 2 true) 2 "u" "c" ⟨"e"⟩
          "" false).db.rows "u" "c" = some r2 ∧
        r2.value = .wellFormed ([⟨"a"⟩] ++ [⟨"e"⟩]))) :=
  ⟨⟨by decide, by decide, by decide, by decide⟩,
    C7_append_no_eviction (DB.mk [⟨"u", "c", .wellFormed [⟨"a"⟩], "t", 0⟩,
      ⟨"v", "d", .wellFormed [⟨"b"⟩], "s", 1⟩] 2 true) 2 "u" "c" "" ⟨"e"⟩
      ⟨"u", "c", .wellFormed [⟨"a"⟩], "t", 0⟩ [⟨"a"⟩]
      (by decide) (by decide) (by decide) (by decide)⟩

/-- C8: on the append branch the record's topic_summary is left unchanged
while its updated_at is refreshed to the current time, and no other record
is touched. -/
theorem C8_append_topic_unchanged (db : DB) (K : Int) (u c t : String)
    (e : CacheEntry) (r : ConversationRecord) (l : List CacheEntry)
    (hH : db.healthy = true) (hr : findRow db.rows u c = some r)
    (hv : r.value = .wellFormed l) (hne : l ≠ []) :
    (∃ r2, findRow (PostgresCache.insert_or_append db K u c e t
        false).db.rows u c = some r2 ∧
      r2.topic_summary = r.topic_summary ∧
      r2.updated_at = db.now ∧
      r2.value = .wellFormed (l ++ [e])) ∧
    (∀ x ∈ db.rows, ¬(x.user_id = u ∧ x.conversation_id = c) →
      x ∈ (PostgresCache.insert_or_append db K u c e t false).db.rows) := by
  obtain ⟨_, _, h3, h4⟩ := append_branch_spec db K u c t e r l hH hr hv hne
  exact ⟨⟨_, h4, rfl, rfl, rfl⟩, h3⟩

/-- C8 witness: a healthy one-row table, appending to its key. -/
theorem C8_append_topic_unchanged_witness :
    ((DB.mk [⟨"u", "c", .wellFormed [⟨"a"⟩], "topic", 0⟩] 5 true).healthy
        = true ∧
      findRow (DB.mk [⟨"u", "c", .wellFormed [⟨"a"⟩], "topic", 0⟩] 5
        true).rows "u" "c" = some ⟨"u", "c", .wellFormed [⟨"a"⟩], "topic", 0⟩ ∧
      (⟨"u", "c", .wellFormed [⟨"a"⟩], "topic", 0⟩ :
        ConversationRecord).value = .wellFormed [⟨"a"⟩] ∧
      ([⟨"a"⟩] : List CacheEntry) ≠ []) ∧
    ((∃ r2, findRow (PostgresCache.insert_or_append (DB.mk
        [⟨"u", "c", .wellFormed [⟨"a"⟩], "topic", 0⟩] 5 true) 7 "u" "c"
        ⟨"e"⟩ "other" false).db.rows "u" "c" = some r2 ∧
      r2.topic_summary = (⟨"u", "c", .wellFormed [⟨"a"⟩], "topic", 0⟩ :
        ConversationRecord).topic_summary ∧
      r2.updated_at = (DB.mk [⟨"u", "c", .wellFormed [⟨"a"⟩], "topic", 0⟩]
        5 true).now ∧
      r2.value = .wellFormed ([⟨"a"⟩] ++ [⟨"e"⟩])) ∧
    (∀ x ∈ (DB.mk [⟨"u", "c", .wellFormed [⟨"a"⟩], "topic", 0⟩] 5
        true).rows, ¬(x.user_id = "u" ∧ x.conversation_id = "c") →
      x ∈ (PostgresCache.insert_or_append (DB.mk
        [⟨"u", "c", .wellFormed [⟨"a"⟩], "topic", 0⟩] 5 true) 7 "u" "c"
        ⟨"e"⟩ "other" false).db.rows)) :=
  ⟨⟨by decide, by decide, by decide, by decide⟩,
    C8_append_topic_unchanged (DB.mk
      [⟨"u", "c", .wellFormed [⟨"a"⟩], "topic", 0⟩] 5 true) 7 "u" "c"
      "other" ⟨"e"⟩ ⟨"u", "c", .wellFormed [⟨"a"⟩], "topic", 0⟩ [⟨"a"⟩]
      (by decide) (by decide) (by decide) (by decide)⟩

/-- C5 counterexample: a stored malformed payload makes `get` raise the
deserialization ValueError unwrapped — not a CacheError/StorageError — so a
failure arising inside get's backend interaction does escape unwrapped. -/
theorem C5_counterexample :
    (PostgresCache.get ⟨[⟨"u", "c", .malformed "xx", "t", 0⟩], 1, true⟩
      "u" "c" true).result = .error (.valueError "xx") ∧
    isWrappedErr (PostgresCache.get ⟨[⟨"u", "c", .malformed "xx", "t", 0⟩],
      1, true⟩ "u" "c" true).result = false := by decide

/-- C5 (amended): every DatabaseError arising inside get's backend
interaction is wrapped into a CacheError naming the failing operation
"PostgresCache.get" — but a malformed stored payload raises its
deserialization ValueError unwrapped; these are the only errors get can
raise past validation. -/
theorem C5_error_wrapping (db : DB) (u c : String) (skip : Bool)
    (hid : construct_key u c skip = .ok ()) :
    (db.healthy = false →
      (PostgresCache.get db u c skip).result
        = .error (.cacheError "PostgresCache.get"
            (.databaseError "connection failure"))) ∧
    (∀ e, (PostgresCache.get db u c skip).result = .error e →
      (e = .cacheError "PostgresCache.get"
          (.databaseError "connection failure") ∧ db.healthy = false) ∨
      (∃ r raw, findRow db.rows u c = some r ∧ r.value = .malformed raw ∧
        e = .valueError raw)) := by
  constructor
  · intro hH
    simp [PostgresCache.get, hid, PostgresCache._select, hH,
      PostgresCache.wrapErr, PyError.isDatabaseError]
  · intro e he
    cases hH : db.healthy with
    | false =>
      left
      simp [PostgresCache.get, hid, PostgresCache._select, hH,
        PostgresCache.wrapErr, PyError.isDatabaseError] at he
      exact ⟨he.symm, rfl⟩
    | true =>
      cases hfind : findRow db.rows u c with
      | none =>
        simp [PostgresCache.get, hid, PostgresCache._select, hH, hfind] at he
      | some r =>
        cases hval : r.value with
        | wellFormed l =>
          simp [PostgresCache.get, hid, PostgresCache._select, hH, hfind,
            hval] at he
        | malformed raw =>
          right
          simp [PostgresCache.get, hid, PostgresCache._select, hH, hfind,
            hval, PostgresCache.wrapErr, PyError.isDatabaseError] at he
          exact ⟨r, raw, rfl, hval, he.symm⟩

/-- C5 witness: skip-validated `get` on an unhealthy backend and on a
healthy table holding a malformed payload. -/
theorem C5_error_wrapping_witness :
    (construct_key "u" "c" true = .ok ()) ∧
    (((DB.mk [⟨"u", "c", .malformed "zz", "t", 0⟩] 1 false).healthy = false →
      (PostgresCache.get (DB.mk [⟨"u", "c", .malformed "zz", "t", 0⟩] 1
        false) "u" "c" true).result
        = .error (.cacheError "PostgresCache.get"
            (.databaseError "connection failure"))) ∧
    (∀ e, (PostgresCache.get (DB.mk [⟨"u", "c", .malformed "zz", "t", 0⟩] 1
        false) "u" "c" true).result = .error e →
      (e = .cacheError "PostgresCache.get"
          (.databaseError "connection failure") ∧
        (DB.mk [⟨"u", "c", .malformed "zz", "t", 0⟩] 1 false).healthy
          = false) ∨
      (∃ r raw, findRow (DB.mk [⟨"u", "c", .malformed "zz", "t", 0⟩] 1
          false).rows "u" "c" = some r ∧ r.value = .malformed raw ∧
        e = .valueError raw))) :=
  ⟨by decide,
    C5_error_wrapping (DB.mk [⟨"u", "c", .malformed "zz", "t", 0⟩] 1 false)
      "u" "c" true (by decide)⟩

end OLS
